import Mathlib

/-
Verification of the transcript-acquisition core of YT_Summarizer
(src/main.py): identifier extraction, timestamp rendering, the
language-fallback retry engine, the append-only transcript store and the
orchestrating main flow, each embedded as an executable Lean definition.
-/

set_option linter.unusedVariables false

namespace YT

/-- ASCII fragment of the character class of the regex pattern
v=([\w-]+) used by extract_video_id: word characters or a dash. -/
def isWordDash (c : Char) : Bool :=
  c.isAlphanum || c == '_' || c == '-'

/-- True when the regex v=([\w-]+) matches at the start of the list: the
characters v and = followed by at least one word character or dash. -/
def headMatch : List Char → Bool
  | 'v' :: '=' :: c :: _ => isWordDash c
  | _ => false

/-- One scan step per character, as re.search does: at each position, if the
pattern v=([\w-]+) matches here, return its captured group, the maximal run
of word characters and dashes after the equals sign; otherwise move one
position to the right. -/
def extractAux : List Char → Option (List Char)
  | [] => none
  | c :: rest =>
    if headMatch (c :: rest) then some (rest.tail.takeWhile isWordDash)
    else extractAux rest

/-- Embedding of extract_video_id (src/main.py): search for v=([\w-]+) and
return the captured group; none models the raised ValueError. -/
def extract_video_id (url : String) : Option String :=
  (extractAux url.toList).map fun cs => String.mk cs

/-- Python modulus a % b on rationals, as used on nonnegative floats. -/
def pyMod (a b : ℚ) : ℚ := a - b * (⌊a / b⌋ : ℚ)

/-- The :02 format specifier: zero-pad a nonnegative number to two digits. -/
def pad2 (n : ℕ) : String := if n < 10 then "0" ++ toString n else toString n

/-- Embedding of convert_seconds_to_timestamp (src/main.py).  The source
computes int(seconds // 3600), int((seconds % 3600) // 60) and
int(seconds % 60); on the nonnegative inputs this program feeds it, floor
division composed with int is the floor, so each component is a floor. -/
def convert_seconds_to_timestamp (seconds : ℚ) : String :=
  let hours := (⌊seconds / 3600⌋).toNat
  let minutes := (⌊pyMod seconds 3600 / 60⌋).toNat
  let secs := (⌊pyMod seconds 60⌋).toNat
  pad2 hours ++ ":" ++ pad2 minutes ++ ":" ++ pad2 secs

/-- One timed caption entry as returned by the provider: a start offset in
seconds and its text. -/
structure TimedEntry where
  start : ℚ
  text : String

/-- Classification of one provider attempt (list_transcripts, find_transcript
and fetch as a unit): success with the raw entries, one of the two
fatal-per-language exceptions, or any other exception. -/
inductive Outcome where
  | success (entries : List TimedEntry)
  | disabled
  | notFound
  | transient

/-- The transcript text built in get_video_transcript: one line per entry, a
bracketed timestamp followed immediately by the text, joined by newlines. -/
def renderTranscript (entries : List TimedEntry) : String :=
  String.intercalate "\n"
    (entries.map fun entry =>
      "[" ++ convert_seconds_to_timestamp entry.start ++ "]" ++ entry.text)

/-- The inner retry loop of get_video_transcript for one language.  The list
argument holds the attempt numbers still to run, initially
range(1, max_retries + 1).  Returns the backoff delays slept, and the fetched
entries if some attempt succeeded.  success returns at once; disabled and
notFound break out of the loop; transient sleeps base_delay * 2 ^ (n - 1)
when n < max_retries and continues. -/
def attemptLoop (oracle : ℕ → Outcome) (baseDelay maxRetries : ℕ) :
    List ℕ → List ℕ × Option (List TimedEntry)
  | [] => ([], none)
  | n :: rest =>
    match oracle n with
    | Outcome.success entries => ([], some entries)
    | Outcome.disabled => ([], none)
    | Outcome.notFound => ([], none)
    | Outcome.transient =>
      if n < maxRetries then
        let r := attemptLoop oracle baseDelay maxRetries rest
        (baseDelay * 2 ^ (n - 1) :: r.1, r.2)
      else
        attemptLoop oracle baseDelay maxRetries rest

/-- The outer loop of get_video_transcript over the language preferences:
the first language whose retry loop succeeds wins, a failed language falls
through to the next one, with its slept delays accumulated. -/
def fetchLanguages (oracle : String → ℕ → Outcome) (baseDelay maxRetries : ℕ) :
    List String → List ℕ × Option (String × String)
  | [] => ([], none)
  | lang :: rest =>
    match attemptLoop (oracle lang) baseDelay maxRetries (List.range' 1 maxRetries) with
    | (sleeps, some entries) => (sleeps, some (renderTranscript entries, lang))
    | (sleeps, none) =>
      (sleeps ++ (fetchLanguages oracle baseDelay maxRetries rest).1,
       (fetchLanguages oracle baseDelay maxRetries rest).2)

/-- The fixed message of the ValueError raised when every language fails. -/
def exhaustionMessage : String :=
  "[Error] Could not retrieve transcript after multiple attempts."

/-- Embedding of get_video_transcript (src/main.py): languages ("en", "fa"),
max_retries = 7, base_delay = 2 seconds.  The oracle gives the provider
outcome of each (language, attempt number); the first component collects
every slept delay in order, the second is the returned (transcript, language)
pair or the raised error. -/
def get_video_transcript (oracle : String → ℕ → Outcome) (video_id : String) :
    List ℕ × Except String (String × String) :=
  match fetchLanguages oracle 2 7 ["en", "fa"] with
  | (sleeps, some p) => (sleeps, Except.ok p)
  | (sleeps, none) => (sleeps, Except.error exhaustionMessage)

/-- One row of the transcripts table of src/main.py. -/
structure TranscriptRecord where
  video_id : String
  url : String
  transcript : String
  transcription_language : String
  created_at : ℕ
deriving DecidableEq

/-- ORDER BY created_at DESC LIMIT 1: keep the record with the latest
created_at, the earlier inserted one on ties. -/
def pickNewer (acc : Option TranscriptRecord) (r : TranscriptRecord) :
    Option TranscriptRecord :=
  match acc with
  | none => some r
  | some b => if b.created_at < r.created_at then some r else some b

/-- The row the SELECT of get_transcript_from_db returns. -/
def latestFor (db : List TranscriptRecord) (v : String) : Option TranscriptRecord :=
  (db.filter fun r => r.video_id == v).foldl pickNewer none

/-- Embedding of get_transcript_from_db (src/main.py): the transcript and
language of the newest row for the id, or (None, None). -/
def get_transcript_from_db (db : List TranscriptRecord) (video_id : String) :
    Option String × Option String :=
  match latestFor db video_id with
  | some r => (some r.transcript, some r.transcription_language)
  | none => (none, none)

/-- Embedding of store_transcript (src/main.py): always inserts a new row. -/
def store_transcript (db : List TranscriptRecord)
    (video_id url transcript transcription_language : String) (now : ℕ) :
    List TranscriptRecord :=
  db ++ [⟨video_id, url, transcript, transcription_language, now⟩]

/-- Result of one acquisition run of main (src/main.py): the database after
the call, the (transcript, language) pair main goes on to render (none when a
ValueError was caught), and how many times get_video_transcript was called. -/
structure AcquireResult where
  db : List TranscriptRecord
  outcome : Option (String × String)
  fetchCalls : ℕ
deriving DecidableEq

/-- Python truthiness of the transcript read back from the database: None and
the empty string are falsy. -/
def truthy : Option String → Bool
  | none => false
  | some t => !(t == "")

/-- Embedding of the acquisition part of main (src/main.py lines 233-255):
extract the id, consult the store unless force_fetch, fetch when the cached
text is falsy, then try to store the fresh result.  storeOk false models the
absorbed exception of a failing store_transcript; now is the timestamp
store_transcript would record. -/
def acquire (oracle : String → ℕ → Outcome) (db : List TranscriptRecord)
    (url : String) (force_fetch : Bool) (now : ℕ) (storeOk : Bool) : AcquireResult :=
  match extract_video_id url with
  | none => ⟨db, none, 0⟩
  | some video_id =>
    let cached := if force_fetch then (none, none) else get_transcript_from_db db video_id
    if truthy cached.1 then
      ⟨db, some (cached.1.getD "", cached.2.getD ""), 0⟩
    else
      match (get_video_transcript oracle video_id).2 with
      | Except.error _ => ⟨db, none, 1⟩
      | Except.ok (t, l) =>
        ⟨if storeOk then store_transcript db video_id url t l now else db,
         some (t, l), 1⟩

/-- The first list is an initial segment of the second. -/
def startsWithChars : List Char → List Char → Bool
  | [], _ => true
  | _ :: _, [] => false
  | a :: as, b :: bs => a == b && startsWithChars as bs

/-- The needle occurs contiguously somewhere inside the haystack. -/
def occursIn (needle : List Char) : List Char → Bool
  | [] => startsWithChars needle []
  | c :: rest => startsWithChars needle (c :: rest) || occursIn needle rest

/-- One language fails completely in get_video_transcript: either some
transient attempts followed by a disabled or notFound abort, or all seven
attempts transient. -/
def perLanguageFails (o : ℕ → Outcome) : Prop :=
  (∃ j, 1 ≤ j ∧ j ≤ 7 ∧ (∀ i, 1 ≤ i → i < j → o i = Outcome.transient) ∧
      (o j = Outcome.disabled ∨ o j = Outcome.notFound)) ∨
  (∀ i, 1 ≤ i → i ≤ 7 → o i = Outcome.transient)

/-- What the inner loop yields when an attempt ends the loop with this
outcome: the entries on success, nothing on an abort. -/
def stopResult : Outcome → Option (List TimedEntry)
  | Outcome.success entries => some entries
  | _ => none

/-- The two provider entries of the specification scenario. -/
def helloEntries : List TimedEntry := [⟨0, "Hello"⟩, ⟨65, "world"⟩]

lemma attemptLoop_stops (oracle : ℕ → Outcome) (b maxR n m k : ℕ)
    (hn : 1 ≤ n) (hnk : n ≤ k) (hkm : k < n + m) (hkmax : k ≤ maxR)
    (htr : ∀ i, n ≤ i → i < k → oracle i = Outcome.transient)
    (hstop : oracle k ≠ Outcome.transient) :
    attemptLoop oracle b maxR (List.range' n m) =
      ((List.range (k - n)).map (fun i => b * 2 ^ (n - 1 + i)),
       stopResult (oracle k)) := by
  induction m generalizing n with
  | zero => omega
  | succ m ih =>
    rw [List.range'_succ]
    rcases eq_or_lt_of_le hnk with heq | hlt
    · subst heq
      cases hoc : oracle n with
      | success e => simp [attemptLoop, hoc, stopResult]
      | disabled => simp [attemptLoop, hoc, stopResult]
      | notFound => simp [attemptLoop, hoc, stopResult]
      | transient => exact absurd hoc hstop
    · have hocn : oracle n = Outcome.transient := htr n le_rfl hlt
      have hnmax : n < maxR := lt_of_lt_of_le hlt hkmax
      have hrec := ih (n + 1) (by omega) (by omega) (by omega)
        (fun i h1 h2 => htr i (by omega) h2)
      simp only [attemptLoop, hocn, if_pos hnmax, hrec]
      have hk : k - n = (k - (n + 1)) + 1 := by omega
      rw [hk, List.range_succ_eq_map, List.map_cons, List.map_map]
      simp only [Prod.mk.injEq, Nat.add_zero, and_true]
      congr 1
      apply List.map_congr_left
      intro i _
      simp only [Function.comp_apply]
      exact congrArg (fun e => b * 2 ^ e) (by omega : n + 1 - 1 + i = n - 1 + (i + 1))

lemma attemptLoop_exhausts (oracle : ℕ → Outcome) (b maxR n m : ℕ)
    (hm : n + m = maxR + 1)
    (htr : ∀ i, n ≤ i → i ≤ maxR → oracle i = Outcome.transient) :
    (attemptLoop oracle b maxR (List.range' n m)).2 = none := by
  induction m generalizing n with
  | zero => simp [attemptLoop]
  | succ m ih =>
    rw [List.range'_succ]
    have hocn : oracle n = Outcome.transient := htr n le_rfl (by omega)
    by_cases hlt : n < maxR
    · simp only [attemptLoop, hocn, if_pos hlt]
      exact ih (n + 1) (by omega) (fun i h1 h2 => htr i (by omega) h2)
    · have hm0 : m = 0 := by omega
      subst hm0
      simp [attemptLoop, hocn, if_neg hlt]

lemma exp_shift : (fun i : ℕ => 2 * 2 ^ (1 - 1 + i)) = fun i : ℕ => 2 * 2 ^ i := by
  funext i
  have hi : 1 - 1 + i = i := by omega
  rw [hi]

/-- Claim C2: within one language, when the provider is transient on attempts
1..k-1 and succeeds on attempt k with k at most max_retries = 7, the fetcher
sleeps exactly base_delay, 2*base_delay, ..., 2^(k-2)*base_delay (base_delay
= 2) between attempts and returns the success result with no further delay. -/
theorem retry_backoff_schedule (oracle : String → ℕ → Outcome) (video_id : String)
    (k : ℕ) (entries : List TimedEntry)
    (hk1 : 1 ≤ k) (hk7 : k ≤ 7)
    (htr : ∀ i, 1 ≤ i → i < k → oracle "en" i = Outcome.transient)
    (hks : oracle "en" k = Outcome.success entries) :
    get_video_transcript oracle video_id =
      ((List.range (k - 1)).map (fun i => 2 * 2 ^ i),
       Except.ok (renderTranscript entries, "en")) := by
  have hstop : oracle "en" k ≠ Outcome.transient := by simp [hks]
  have h := attemptLoop_stops (oracle "en") 2 7 1 7 k le_rfl hk1 (by omega) hk7 htr hstop
  rw [hks] at h
  simp only [stopResult] at h
  rw [exp_shift] at h
  simp only [get_video_transcript, fetchLanguages, h]

/-- Witness for claim C2 at k = 3: two transient attempts then success. -/
theorem retry_backoff_schedule_witness :
    get_video_transcript (fun _ n => if n < 3 then Outcome.transient else Outcome.success []) "vid" =
      ((List.range (3 - 1)).map (fun i => 2 * 2 ^ i),
       Except.ok (renderTranscript [], "en")) :=
  retry_backoff_schedule (fun _ n => if n < 3 then Outcome.transient else Outcome.success [])
    "vid" 3 [] (by decide) (by decide)
    (fun i h1 h2 => by simp [h2])
    rfl

/-- Claim C3: a disabled or notFound outcome on any attempt of a language
causes zero further retry delay for that language and an immediate move to
the next language preference, whose own attempt budget is untouched: the run
on ("en", "fa") is the delays of the aborted en attempts followed by exactly
the standalone run on ("fa"). -/
theorem abort_skips_to_next_language (oracle : String → ℕ → Outcome)
    (video_id : String) (j : ℕ)
    (hj1 : 1 ≤ j) (hj7 : j ≤ 7)
    (htr : ∀ i, 1 ≤ i → i < j → oracle "en" i = Outcome.transient)
    (hab : oracle "en" j = Outcome.disabled ∨ oracle "en" j = Outcome.notFound) :
    get_video_transcript oracle video_id =
      ((List.range (j - 1)).map (fun i => 2 * 2 ^ i) ++
         (fetchLanguages oracle 2 7 ["fa"]).1,
       match (fetchLanguages oracle 2 7 ["fa"]).2 with
       | some p => Except.ok p
       | none => Except.error exhaustionMessage) := by
  have hstop : oracle "en" j ≠ Outcome.transient := by
    rcases hab with h1 | h1 <;> simp [h1]
  have h := attemptLoop_stops (oracle "en") 2 7 1 7 j le_rfl hj1 (by omega) hj7 htr hstop
  have hnone : stopResult (oracle "en" j) = none := by
    rcases hab with h1 | h1 <;> rw [h1] <;> rfl
  rw [hnone] at h
  rw [exp_shift] at h
  have hcons : fetchLanguages oracle 2 7 ["en", "fa"] =
      ((List.range (j - 1)).map (fun i => 2 * 2 ^ i) ++
         (fetchLanguages oracle 2 7 ["fa"]).1,
       (fetchLanguages oracle 2 7 ["fa"]).2) := by
    simp only [fetchLanguages, h]
  unfold get_video_transcript
  rw [hcons]
  rcases hfa : (fetchLanguages oracle 2 7 ["fa"]).2 with _ | p <;> rfl

/-- Witness for claim C3: en disabled on the first attempt, fa succeeds. -/
theorem abort_skips_to_next_language_witness :
    get_video_transcript
        (fun lang n => if lang == "en" then Outcome.disabled else Outcome.success []) "vid" =
      ((List.range (1 - 1)).map (fun i => 2 * 2 ^ i) ++
         (fetchLanguages
           (fun lang n => if lang == "en" then Outcome.disabled else Outcome.success [])
           2 7 ["fa"]).1,
       match (fetchLanguages
           (fun lang n => if lang == "en" then Outcome.disabled else Outcome.success [])
           2 7 ["fa"]).2 with
       | some p => Except.ok p
       | none => Except.error exhaustionMessage) :=
  abort_skips_to_next_language
    (fun lang n => if lang == "en" then Outcome.disabled else Outcome.success [])
    "vid" 1 (by decide) (by decide)
    (fun i h1 h2 => by omega)
    (Or.inl rfl)

/-- Claim C4, amended: when every configured language preference fails (by
hard abort or retry exhaustion), get_video_transcript raises the exhaustion
ValueError, whose message is the fixed string exhaustionMessage, and the
orchestrator performs no cache write on that call. -/
theorem exhaustion_no_cache_write (oracle : String → ℕ → Outcome)
    (db : List TranscriptRecord) (url video_id : String) (now : ℕ) (storeOk : Bool)
    (hvid : extract_video_id url = some video_id)
    (hmiss : get_transcript_from_db db video_id = (none, none))
    (hfail : ∀ lang ∈ (["en", "fa"] : List String), perLanguageFails (oracle lang)) :
    (get_video_transcript oracle video_id).2 = Except.error exhaustionMessage ∧
    acquire oracle db url false now storeOk = ⟨db, none, 1⟩ := by
  have key : ∀ lang ∈ (["en", "fa"] : List String),
      (attemptLoop (oracle lang) 2 7 (List.range' 1 7)).2 = none := by
    intro lang hl
    rcases hfail lang hl with ⟨j, hj1, hj7, htr, hab⟩ | hall
    · have hstop : oracle lang j ≠ Outcome.transient := by
        rcases hab with h1 | h1 <;> simp [h1]
      have h := attemptLoop_stops (oracle lang) 2 7 1 7 j le_rfl hj1 (by omega) hj7 htr hstop
      rw [h]
      rcases hab with h1 | h1 <;> rw [h1] <;> rfl
    · exact attemptLoop_exhausts (oracle lang) 2 7 1 7 rfl (fun i h1 h2 => hall i h1 h2)
  have hen := key "en" (by simp)
  have hfa := key "fa" (by simp)
  have herr : get_video_transcript oracle video_id =
      ((attemptLoop (oracle "en") 2 7 (List.range' 1 7)).1 ++
         ((attemptLoop (oracle "fa") 2 7 (List.range' 1 7)).1 ++ []),
       Except.error exhaustionMessage) := by
    have h1 : attemptLoop (oracle "en") 2 7 (List.range' 1 7) =
        ((attemptLoop (oracle "en") 2 7 (List.range' 1 7)).1, none) := by
      rw [← hen]
    have h2 : attemptLoop (oracle "fa") 2 7 (List.range' 1 7) =
        ((attemptLoop (oracle "fa") 2 7 (List.range' 1 7)).1, none) := by
      rw [← hfa]
    unfold get_video_transcript
    conv_lhs => rw [show fetchLanguages oracle 2 7 ["en", "fa"] =
      ((attemptLoop (oracle "en") 2 7 (List.range' 1 7)).1 ++
         ((attemptLoop (oracle "fa") 2 7 (List.range' 1 7)).1 ++ []),
       none) from by simp only [fetchLanguages]; rw [h1, h2]]
  constructor
  · rw [herr]
  · unfold acquire
    rw [hvid]
    simp only [Bool.false_eq_true, if_false, hmiss, truthy, Bool.false_eq_true]
    rw [herr]

/-- Claim C4, counterexample to the message clause as stated: for the video
identifier ABC123 with captions disabled in every language, the raised
message is the fixed exhaustion string, which contains neither the video
identifier ABC123 nor the attempted language codes en and fa. -/
theorem exhaustion_message_counterexample :
    (get_video_transcript (fun _ _ => Outcome.disabled) "ABC123").2 =
        Except.error exhaustionMessage ∧
    occursIn "ABC123".toList exhaustionMessage.toList = false ∧
    occursIn "en".toList exhaustionMessage.toList = false ∧
    occursIn "fa".toList exhaustionMessage.toList = false :=
  ⟨rfl, by decide, by decide, by decide⟩

/-- Witness for the amended claim C4: both languages disabled at once. -/
theorem exhaustion_no_cache_write_witness :
    (get_video_transcript (fun _ _ => Outcome.disabled) "ABC123").2 =
        Except.error exhaustionMessage ∧
    acquire (fun _ _ => Outcome.disabled) []
        "https://www.youtube.com/watch?v=ABC123" false 0 true = ⟨[], none, 1⟩ :=
  exhaustion_no_cache_write (fun _ _ => Outcome.disabled) []
    "https://www.youtube.com/watch?v=ABC123" "ABC123" 0 true
    rfl
    rfl
    (fun lang _ => Or.inl ⟨1, le_rfl, by decide, fun i h1 h2 => by omega, Or.inl rfl⟩)

lemma foldl_pickNewer_ne_none (l : List TranscriptRecord) (b : TranscriptRecord) :
    l.foldl pickNewer (some b) ≠ none := by
  induction l generalizing b with
  | nil => simp
  | cons r rest ih =>
    simp only [List.foldl_cons, pickNewer]
    by_cases hlt : b.created_at < r.created_at <;> simp [hlt] <;> apply ih

lemma latestFor_eq_none (db : List TranscriptRecord) (v : String)
    (h : latestFor db v = none) :
    db.filter (fun r => r.video_id == v) = [] := by
  unfold latestFor at h
  cases hf : db.filter (fun r => r.video_id == v) with
  | nil => rfl
  | cons r rest =>
    rw [hf, List.foldl_cons] at h
    exact absurd h (foldl_pickNewer_ne_none rest r)

lemma get_db_none (db : List TranscriptRecord) (v : String)
    (h : get_transcript_from_db db v = (none, none)) : latestFor db v = none := by
  unfold get_transcript_from_db at h
  cases hl : latestFor db v with
  | none => rfl
  | some r => rw [hl] at h; simp at h

lemma get_db_after_store (db : List TranscriptRecord) (v : String)
    (rec : TranscriptRecord)
    (hdb : db.filter (fun r => r.video_id == v) = []) (hrec : rec.video_id = v) :
    get_transcript_from_db (db ++ [rec]) v =
      (some rec.transcript, some rec.transcription_language) := by
  unfold get_transcript_from_db latestFor
  rw [List.filter_append, hdb]
  simp [List.filter, hrec, pickNewer]

/-- Claim C1: starting from a store with no record for the extracted
identifier, when the provider fetch succeeds with a non-empty transcript,
the first acquire call (bypass_cache false) fetches once and appends the
record, and the second call fetches zero times, is answered from the store,
and both calls return the identical (transcript, language) pair. -/
theorem acquire_idempotent (oracle : String → ℕ → Outcome)
    (db : List TranscriptRecord) (url video_id t lang : String) (now1 now2 : ℕ)
    (hvid : extract_video_id url = some video_id)
    (hmiss : get_transcript_from_db db video_id = (none, none))
    (hfetch : (get_video_transcript oracle video_id).2 = Except.ok (t, lang))
    (ht : t ≠ "") :
    acquire oracle db url false now1 true =
      ⟨db ++ [⟨video_id, url, t, lang, now1⟩], some (t, lang), 1⟩ ∧
    acquire oracle (db ++ [⟨video_id, url, t, lang, now1⟩]) url false now2 true =
      ⟨db ++ [⟨video_id, url, t, lang, now1⟩], some (t, lang), 0⟩ := by
  have hfilter := latestFor_eq_none db video_id (get_db_none db video_id hmiss)
  have hfetch2 : get_video_transcript oracle video_id =
      ((get_video_transcript oracle video_id).1, Except.ok (t, lang)) := by
    rw [← hfetch]
  constructor
  · unfold acquire
    rw [hvid]
    simp only [Bool.false_eq_true, if_false, hmiss, truthy]
    rw [hfetch2]
    simp [store_transcript]
  · have hhit := get_db_after_store db video_id ⟨video_id, url, t, lang, now1⟩ hfilter rfl
    unfold acquire
    rw [hvid]
    simp only [Bool.false_eq_true, if_false, hhit, truthy]
    have htb : (t == "") = false := by
      simpa using ht
    simp [htb]

lemma renderHello_ne_empty : renderTranscript [⟨0, "Hello"⟩] ≠ "" := by
  have he : renderTranscript [⟨0, "Hello"⟩] =
      "[" ++ convert_seconds_to_timestamp 0 ++ "]" ++ "Hello" := rfl
  rw [he]
  intro hcon
  have hlen := congrArg String.length hcon
  simp [String.length_append] at hlen
  exact absurd hlen.2 (by decide)

/-- Witness for claim C1: an empty store and a provider succeeding at once
with one entry of text Hello at offset zero. -/
theorem acquire_idempotent_witness :
    acquire (fun _ _ => Outcome.success [⟨0, "Hello"⟩]) []
        "https://www.youtube.com/watch?v=ABC123" false 3 true =
      ⟨[⟨"ABC123", "https://www.youtube.com/watch?v=ABC123",
          renderTranscript [⟨0, "Hello"⟩], "en", 3⟩],
        some (renderTranscript [⟨0, "Hello"⟩], "en"), 1⟩ ∧
    acquire (fun _ _ => Outcome.success [⟨0, "Hello"⟩])
        [⟨"ABC123", "https://www.youtube.com/watch?v=ABC123",
            renderTranscript [⟨0, "Hello"⟩], "en", 3⟩]
        "https://www.youtube.com/watch?v=ABC123" false 5 true =
      ⟨[⟨"ABC123", "https://www.youtube.com/watch?v=ABC123",
          renderTranscript [⟨0, "Hello"⟩], "en", 3⟩],
        some (renderTranscript [⟨0, "Hello"⟩], "en"), 0⟩ := by
  have h := acquire_idempotent (fun _ _ => Outcome.success [⟨0, "Hello"⟩]) []
    "https://www.youtube.com/watch?v=ABC123" "ABC123"
    (renderTranscript [⟨0, "Hello"⟩]) "en" 3 5
    rfl
    rfl
    rfl
    renderHello_ne_empty
  simpa using h

lemma foldl_pickNewer_keeps (l : List TranscriptRecord) (r : TranscriptRecord)
    (hall : ∀ a ∈ l, a.created_at ≤ r.created_at) :
    l.foldl pickNewer (some r) = some r := by
  induction l with
  | nil => rfl
  | cons x xs ih =>
    have hx : x.created_at ≤ r.created_at := hall x (by simp)
    simp only [List.foldl_cons, pickNewer]
    rw [if_neg (by omega : ¬ r.created_at < x.created_at)]
    exact ih (fun y hy => hall y (by simp [hy]))

lemma foldl_pickNewer_strictmax (l : List TranscriptRecord) (r : TranscriptRecord)
    (hr : r ∈ l)
    (hmax : ∀ a ∈ l, a ≠ r → a.created_at < r.created_at) :
    ∀ acc : Option TranscriptRecord,
      (∀ a, acc = some a → a.created_at < r.created_at) →
      l.foldl pickNewer acc = some r := by
  induction l with
  | nil => cases hr
  | cons x xs ih =>
    intro acc hacc
    by_cases hxr : x = r
    · subst hxr
      have hstep : pickNewer acc x = some x := by
        cases acc with
        | none => rfl
        | some a =>
          have := hacc a rfl
          simp only [pickNewer]
          rw [if_pos this]
      rw [List.foldl_cons, hstep]
      refine foldl_pickNewer_keeps xs x (fun y hy => ?_)
      by_cases hyr : y = x
      · exact hyr ▸ le_rfl
      · exact le_of_lt (hmax y (by simp [hy]) hyr)
    · have hx : x.created_at < r.created_at := hmax x (by simp) hxr
      have hmem : r ∈ xs := by
        rcases List.mem_cons.mp hr with heq | hmem
        · exact absurd heq.symm hxr
        · exact hmem
      rw [List.foldl_cons]
      refine ih hmem (fun a ha hne => hmax a (by simp [ha]) hne) (pickNewer acc x) ?_
      intro a ha
      cases acc with
      | none =>
        simp only [pickNewer] at ha
        cases ha
        exact hx
      | some b =>
        have hb := hacc b rfl
        simp only [pickNewer] at ha
        by_cases hlt : b.created_at < x.created_at
        · rw [if_pos hlt] at ha
          cases ha
          exact hx
        · rw [if_neg hlt] at ha
          cases ha
          exact hb

/-- Claim C7: whenever the store holds a record for the video id whose
created_at is strictly the latest among all records for that id (in
particular with two or more records of pairwise different created_at),
lookup returns that record's transcript and language; and lookup of an id
with no records returns the explicit absent pair (None, None) instead of
raising. -/
theorem lookup_freshness_and_absence :
    (∀ (db : List TranscriptRecord) (v : String) (r : TranscriptRecord),
        r ∈ db → r.video_id = v →
        (∀ a ∈ db, a.video_id = v → a ≠ r → a.created_at < r.created_at) →
        get_transcript_from_db db v =
          (some r.transcript, some r.transcription_language)) ∧
    (∀ (db : List TranscriptRecord) (v : String),
        (∀ r ∈ db, r.video_id ≠ v) →
        get_transcript_from_db db v = (none, none)) := by
  constructor
  · intro db v r hmem hvid hmax
    have hrl : r ∈ db.filter (fun x => x.video_id == v) :=
      List.mem_filter.mpr ⟨hmem, by simp [hvid]⟩
    have hmax' : ∀ a ∈ db.filter (fun x => x.video_id == v),
        a ≠ r → a.created_at < r.created_at := by
      intro a ha hne
      have h1 := (List.mem_filter.mp ha).1
      have h2 := (List.mem_filter.mp ha).2
      exact hmax a h1 (by simpa using h2) hne
    have hfold := foldl_pickNewer_strictmax _ r hrl hmax' none (fun a ha => by cases ha)
    unfold get_transcript_from_db latestFor
    rw [hfold]
  · intro db v h
    unfold get_transcript_from_db latestFor
    have : db.filter (fun r => r.video_id == v) = [] := by
      rw [List.filter_eq_nil_iff]
      intro r hr
      simpa using h r hr
    rw [this]
    rfl

/-- Witness for claim C7: three records for the id A in mixed storage order,
and an id with no records. -/
theorem lookup_freshness_and_absence_witness :
    get_transcript_from_db
        [⟨"A", "u1", "t1", "en", 1⟩, ⟨"A", "u3", "t3", "fa", 3⟩,
         ⟨"A", "u2", "t2", "en", 2⟩] "A" =
      (some "t3", some "fa") ∧
    get_transcript_from_db [⟨"B", "u", "t", "en", 1⟩] "A" = (none, none) :=
  ⟨lookup_freshness_and_absence.1
      [⟨"A", "u1", "t1", "en", 1⟩, ⟨"A", "u3", "t3", "fa", 3⟩,
       ⟨"A", "u2", "t2", "en", 2⟩] "A" ⟨"A", "u3", "t3", "fa", 3⟩
      (by decide) rfl (by decide),
   lookup_freshness_and_absence.2 [⟨"B", "u", "t", "en", 1⟩] "A"
      (by decide)⟩

/-- Claim C8: when the cache write after a successful fetch fails, the
acquisition still succeeds with the freshly fetched pair returned unchanged
and the store left as it was. -/
theorem cache_write_failure_absorbed (oracle : String → ℕ → Outcome)
    (db : List TranscriptRecord) (url video_id t lang : String) (now : ℕ)
    (hvid : extract_video_id url = some video_id)
    (hmiss : get_transcript_from_db db video_id = (none, none))
    (hfetch : (get_video_transcript oracle video_id).2 = Except.ok (t, lang)) :
    acquire oracle db url false now false = ⟨db, some (t, lang), 1⟩ := by
  have hfetch2 : get_video_transcript oracle video_id =
      ((get_video_transcript oracle video_id).1, Except.ok (t, lang)) := by
    rw [← hfetch]
  unfold acquire
  rw [hvid]
  simp only [Bool.false_eq_true, if_false, hmiss, truthy]
  rw [hfetch2]

/-- Witness for claim C8: the freshly fetched pair is returned even though
the store write is lost. -/
theorem cache_write_failure_absorbed_witness :
    acquire (fun _ _ => Outcome.success [⟨0, "Hello"⟩]) []
        "https://www.youtube.com/watch?v=ABC123" false 3 false =
      ⟨[], some (renderTranscript [⟨0, "Hello"⟩], "en"), 1⟩ :=
  cache_write_failure_absorbed (fun _ _ => Outcome.success [⟨0, "Hello"⟩]) []
    "https://www.youtube.com/watch?v=ABC123" "ABC123"
    (renderTranscript [⟨0, "Hello"⟩]) "en" 3
    rfl
    rfl
    rfl

/-- Claim C9: a cached record whose transcript text is empty is treated as a
miss because main tests the truthiness of the text, so acquire with
bypass_cache false fetches again and appends another record. -/
theorem empty_cached_refetched (oracle : String → ℕ → Outcome)
    (db : List TranscriptRecord) (url video_id lang0 t lang : String) (now : ℕ)
    (hvid : extract_video_id url = some video_id)
    (hcached : get_transcript_from_db db video_id = (some "", some lang0))
    (hfetch : (get_video_transcript oracle video_id).2 = Except.ok (t, lang)) :
    acquire oracle db url false now true =
      ⟨db ++ [⟨video_id, url, t, lang, now⟩], some (t, lang), 1⟩ := by
  have hfetch2 : get_video_transcript oracle video_id =
      ((get_video_transcript oracle video_id).1, Except.ok (t, lang)) := by
    rw [← hfetch]
  unfold acquire
  rw [hvid]
  simp only [Bool.false_eq_true, if_false, hcached, truthy]
  rw [hfetch2]
  simp [store_transcript]

/-- Witness for claim C9: a single empty-transcript record for the id. -/
theorem empty_cached_refetched_witness :
    acquire (fun _ _ => Outcome.success [⟨0, "Hello"⟩])
        [⟨"ABC123", "u", "", "en", 1⟩]
        "https://www.youtube.com/watch?v=ABC123" false 3 true =
      ⟨[⟨"ABC123", "u", "", "en", 1⟩,
          ⟨"ABC123", "https://www.youtube.com/watch?v=ABC123",
            renderTranscript [⟨0, "Hello"⟩], "en", 3⟩],
        some (renderTranscript [⟨0, "Hello"⟩], "en"), 1⟩ := by
  have h := empty_cached_refetched (fun _ _ => Outcome.success [⟨0, "Hello"⟩])
    [⟨"ABC123", "u", "", "en", 1⟩]
    "https://www.youtube.com/watch?v=ABC123" "ABC123" "en"
    (renderTranscript [⟨0, "Hello"⟩]) "en" 3
    rfl
    rfl
    rfl
  simpa using h

lemma takeWhile_all_append (ident post : List Char)
    (hid : ∀ c ∈ ident, isWordDash c = true)
    (hpost : post.takeWhile isWordDash = []) :
    (ident ++ post).takeWhile isWordDash = ident := by
  induction ident with
  | nil => simpa using hpost
  | cons c cs ih =>
    have hc : isWordDash c = true := hid c (by simp)
    simp [List.takeWhile_cons, hc, ih (fun x hx => hid x (by simp [hx]))]

lemma extractAux_finds (pre ident post : List Char)
    (hne : ident ≠ [])
    (hid : ∀ c ∈ ident, isWordDash c = true)
    (hpost : post.takeWhile isWordDash = [])
    (hpre : ∀ tail ∈ pre.tails, tail = [] ∨
        headMatch (tail ++ 'v' :: '=' :: (ident ++ post)) = false) :
    extractAux (pre ++ 'v' :: '=' :: (ident ++ post)) = some ident := by
  induction pre with
  | nil =>
    have hm : headMatch ('v' :: '=' :: (ident ++ post)) = true := by
      cases ident with
      | nil => exact absurd rfl hne
      | cons d ds => simpa [headMatch] using hid d (by simp)
    simp only [List.nil_append, extractAux, hm, if_true, List.tail_cons]
    rw [takeWhile_all_append ident post hid hpost]
  | cons c cs ih =>
    have hfull := hpre (c :: cs) (by simp)
    rcases hfull with hemp | hfalse
    · exact absurd hemp (by simp)
    · have hcs : ∀ tail ∈ cs.tails, tail = [] ∨
          headMatch (tail ++ 'v' :: '=' :: (ident ++ post)) = false := by
        intro tail htail
        exact hpre tail (by rw [List.tails_cons]; exact List.mem_cons_of_mem _ htail)
      rw [List.cons_append]
      rw [show extractAux (c :: (cs ++ 'v' :: '=' :: (ident ++ post))) =
          if headMatch (c :: (cs ++ 'v' :: '=' :: (ident ++ post)))
          then some ((cs ++ 'v' :: '=' :: (ident ++ post)).tail.takeWhile isWordDash)
          else extractAux (cs ++ 'v' :: '=' :: (ident ++ post)) from rfl]
      rw [show (c :: cs) ++ 'v' :: '=' :: (ident ++ post) =
          c :: (cs ++ 'v' :: '=' :: (ident ++ post)) from rfl] at hfalse
      rw [hfalse]
      simp only [Bool.false_eq_true, if_false]
      exact ih hcs

lemma extractAux_none (url : List Char)
    (h : ∀ tail ∈ url.tails, headMatch tail = false) :
    extractAux url = none := by
  induction url with
  | nil => rfl
  | cons c cs ih =>
    have hc := h (c :: cs) (by simp)
    rw [show extractAux (c :: cs) =
        if headMatch (c :: cs) then some (cs.tail.takeWhile isWordDash)
        else extractAux cs from rfl]
    rw [hc]
    simp only [Bool.false_eq_true, if_false]
    exact ih (fun tail htail =>
      h tail (by rw [List.tails_cons]; exact List.mem_cons_of_mem _ htail))

/-- Claim C5: for a URL of the form pre v= ident post in which ident is a
non-empty run of word characters or dashes, post does not extend the run,
and no earlier position carries a match of the pattern, extract_video_id
returns exactly ident; and for a URL in which no position matches the
pattern at all, it fails (none, the raised ValueError) rather than
returning any placeholder. -/
theorem extract_video_id_correct :
    (∀ pre ident post : List Char,
        ident ≠ [] →
        (∀ c ∈ ident, isWordDash c = true) →
        post.takeWhile isWordDash = [] →
        (∀ tail ∈ pre.tails, tail = [] ∨
            headMatch (tail ++ 'v' :: '=' :: (ident ++ post)) = false) →
        extract_video_id (String.mk (pre ++ 'v' :: '=' :: (ident ++ post))) =
          some (String.mk ident)) ∧
    (∀ url : List Char, (∀ tail ∈ url.tails, headMatch tail = false) →
        extract_video_id (String.mk url) = none) := by
  constructor
  · intro pre ident post hne hid hpost hpre
    unfold extract_video_id
    rw [show (String.mk (pre ++ 'v' :: '=' :: (ident ++ post))).toList =
        pre ++ 'v' :: '=' :: (ident ++ post) from rfl]
    rw [extractAux_finds pre ident post hne hid hpost hpre]
    rfl
  · intro url h
    unfold extract_video_id
    rw [show (String.mk url).toList = url from rfl]
    rw [extractAux_none url h]
    rfl

/-- Witness for claim C5: a watch URL with a trailing parameter, and a URL
with no v= component at all. -/
theorem extract_video_id_correct_witness :
    extract_video_id (String.mk ("https://www.youtube.com/watch?".toList ++
        'v' :: '=' :: ("ABC123".toList ++ "&t=1s".toList))) =
      some (String.mk "ABC123".toList) ∧
    extract_video_id (String.mk "https://example.com/page".toList) = none :=
  ⟨extract_video_id_correct.1 "https://www.youtube.com/watch?".toList
      "ABC123".toList "&t=1s".toList
      (by decide) (by decide) (by decide) (by decide),
   extract_video_id_correct.2 "https://example.com/page".toList (by decide)⟩

lemma convert_ts_zero : convert_seconds_to_timestamp 0 = "00:00:00" := by
  unfold convert_seconds_to_timestamp pyMod
  rw [show ⌊(0 : ℚ) / 3600⌋ = 0 from by norm_num]
  rw [show ((0 : ℚ) - 3600 * ((0 : ℤ) : ℚ)) = 0 from by norm_num]
  rw [show ⌊(0 : ℚ) / 60⌋ = 0 from by norm_num]
  rw [show ⌊(0 : ℚ) - 60 * ((0 : ℤ) : ℚ)⌋ = 0 from by norm_num]
  decide

lemma convert_ts_65 : convert_seconds_to_timestamp 65 = "00:01:05" := by
  unfold convert_seconds_to_timestamp pyMod
  rw [show ⌊(65 : ℚ) / 3600⌋ = 0 from by norm_num]
  rw [show ((65 : ℚ) - 3600 * ((0 : ℤ) : ℚ)) = 65 from by norm_num]
  rw [show ⌊(65 : ℚ) / 60⌋ = 1 from by norm_num]
  rw [show ⌊(65 : ℚ) - 60 * ((1 : ℤ) : ℚ)⌋ = 5 from by norm_num]
  decide

lemma convert_ts_659 : convert_seconds_to_timestamp (659 / 10) = "00:01:05" := by
  unfold convert_seconds_to_timestamp pyMod
  rw [show ⌊(659 / 10 : ℚ) / 3600⌋ = 0 from by norm_num]
  rw [show ((659 / 10 : ℚ) - 3600 * ((0 : ℤ) : ℚ)) = 659 / 10 from by norm_num]
  rw [show ⌊(659 / 10 : ℚ) / 60⌋ = 1 from by norm_num]
  rw [show ⌊(659 / 10 : ℚ) - 60 * ((1 : ℤ) : ℚ)⌋ = 5 from by norm_num]
  decide

/-- Claim C6: the normalized transcript text concatenates, in provider order
and one entry per line, a zero-padded HH:MM:SS rendering of each start
offset followed immediately by the text; on the scenario entries Hello at
0.0 and world at 65.0 the fetched text and language are exactly as the
specification states. -/
theorem transcript_rendering :
    (∀ entries : List TimedEntry,
        renderTranscript entries =
          String.intercalate "\n"
            (entries.map fun entry =>
              "[" ++ convert_seconds_to_timestamp entry.start ++ "]" ++ entry.text)) ∧
    get_video_transcript (fun _ _ => Outcome.success helloEntries) "ABC123" =
      ([], Except.ok ("[00:00:00]Hello\n[00:01:05]world", "en")) := by
  refine ⟨fun entries => rfl, ?_⟩
  have hrender : renderTranscript helloEntries = "[00:00:00]Hello\n[00:01:05]world" := by
    unfold renderTranscript helloEntries
    simp only [List.map_cons, List.map_nil]
    rw [convert_ts_zero, convert_ts_65]
    decide
  calc get_video_transcript (fun _ _ => Outcome.success helloEntries) "ABC123"
      = ([], Except.ok (renderTranscript helloEntries, "en")) := rfl
    _ = ([], Except.ok ("[00:00:00]Hello\n[00:01:05]world", "en")) := by rw [hrender]

lemma floor_div_intCast (x : ℚ) (n : ℤ) (hn : 0 < (n : ℚ)) :
    ⌊x / (n : ℚ)⌋ = ⌊(⌊x⌋ : ℚ) / (n : ℚ)⌋ := by
  have key : ∀ z : ℤ, z ≤ ⌊x / (n : ℚ)⌋ ↔ z ≤ ⌊(⌊x⌋ : ℚ) / (n : ℚ)⌋ := by
    intro z
    rw [Int.le_floor, Int.le_floor, le_div_iff₀ hn, le_div_iff₀ hn]
    have hc : (z : ℚ) * (n : ℚ) = ((z * n : ℤ) : ℚ) := by push_cast; ring
    rw [hc]
    constructor
    · intro hzx
      exact_mod_cast Int.le_floor.mpr hzx
    · intro hzf
      calc ((z * n : ℤ) : ℚ) ≤ (⌊x⌋ : ℚ) := hzf
        _ ≤ x := Int.floor_le x
  exact le_antisymm ((key _).mp le_rfl) ((key _).mpr le_rfl)

lemma q659_nonneg : (0 : ℚ) ≤ 659 / 10 := by norm_num

/-- Claim C10: the timestamp rendering truncates fractional seconds toward
zero, agreeing with the rendering of the floor of the input for every
nonnegative number of seconds; in particular 65.9 renders as 00:01:05. -/
theorem timestamp_truncation :
    (∀ s : ℚ, 0 ≤ s →
        convert_seconds_to_timestamp s =
          convert_seconds_to_timestamp ((⌊s⌋ : ℤ) : ℚ)) ∧
    convert_seconds_to_timestamp (659 / 10) = "00:01:05" := by
  refine ⟨?_, convert_ts_659⟩
  intro s hs
  have e3600 : ((3600 : ℤ) : ℚ) = (3600 : ℚ) := by norm_num
  have e60 : ((60 : ℤ) : ℚ) = (60 : ℚ) := by norm_num
  have hfd3600 : ⌊s / 3600⌋ = ⌊(⌊s⌋ : ℚ) / 3600⌋ := by
    have h := floor_div_intCast s 3600 (by norm_num)
    rwa [e3600] at h
  have hfd60 : ⌊s / 60⌋ = ⌊(⌊s⌋ : ℚ) / 60⌋ := by
    have h := floor_div_intCast s 60 (by norm_num)
    rwa [e60] at h
  unfold convert_seconds_to_timestamp pyMod
  have hmin : ⌊(s - 3600 * ((⌊s / 3600⌋ : ℤ) : ℚ)) / 60⌋ =
      ⌊(((⌊s⌋ : ℤ) : ℚ) - 3600 * ((⌊((⌊s⌋ : ℤ) : ℚ) / 3600⌋ : ℤ) : ℚ)) / 60⌋ := by
    rw [hfd3600]
    have hsub : (3600 : ℚ) * ((⌊(⌊s⌋ : ℚ) / 3600⌋ : ℤ) : ℚ) =
        ((3600 * ⌊(⌊s⌋ : ℚ) / 3600⌋ : ℤ) : ℚ) := by push_cast; ring
    have hL := floor_div_intCast (s - 3600 * ((⌊(⌊s⌋ : ℚ) / 3600⌋ : ℤ) : ℚ)) 60 (by norm_num)
    rw [e60] at hL
    have hR := floor_div_intCast
      (((⌊s⌋ : ℤ) : ℚ) - 3600 * ((⌊(⌊s⌋ : ℚ) / 3600⌋ : ℤ) : ℚ)) 60 (by norm_num)
    rw [e60] at hR
    rw [hL, hR, hsub, Int.floor_sub_int, Int.floor_sub_int, Int.floor_intCast]
  have hsec : ⌊s - 60 * ((⌊s / 60⌋ : ℤ) : ℚ)⌋ =
      ⌊((⌊s⌋ : ℤ) : ℚ) - 60 * ((⌊((⌊s⌋ : ℤ) : ℚ) / 60⌋ : ℤ) : ℚ)⌋ := by
    rw [hfd60]
    have hsub : (60 : ℚ) * ((⌊(⌊s⌋ : ℚ) / 60⌋ : ℤ) : ℚ) =
        ((60 * ⌊(⌊s⌋ : ℚ) / 60⌋ : ℤ) : ℚ) := by push_cast; ring
    rw [hsub, Int.floor_sub_int, Int.floor_sub_int, Int.floor_intCast]
  rw [hmin, hsec, hfd3600]

/-- Witness for claim C10 at 65.9 seconds. -/
theorem timestamp_truncation_witness :
    convert_seconds_to_timestamp (659 / 10) =
      convert_seconds_to_timestamp ((⌊(659 / 10 : ℚ)⌋ : ℤ) : ℚ) :=
  timestamp_truncation.1 (659 / 10) q659_nonneg

end YT
